import Mathlib

/-!
Shallow embedding of the n-gram language model of
`notebooks/ngram_model.ipynb`: the `Corpus` train/test sentence split and
n-gram extraction, the `NgramModel` learn and predict operations, and the
cross-entropy evaluation loop.

The global random source (`np.random.random()`) is modelled as an explicit
stream `d : ℕ → ℚ` of draws together with the index of the next unused
draw; Python floats are modelled as rationals.  The external spacy
tokenizer is modelled as an abstract function where it is needed.
-/

unseal Rat.mul Rat.inv Rat.add Rat.sub

/-- A token, as produced by the external spacy tokenizer (`token.text`);
equality is exact string match. -/
abbrev Token := String

/-- A sentence is the ordered list of its tokens (a spacy sentence span). -/
abbrev Sentence := List Token

/-- An n-gram; the Python code yields tuples of tokens, embedded as lists. -/
abbrev Ngram := List Token

/-- The corpus wraps the sentence-segmented document (`self.doc` with its
`sents`) together with the train/test split ratio `test_percentage`.  The
document's token stream is the concatenation of its sentences, which is how
spacy partitions a document into sentence spans. -/
structure Corpus where
  sents : List Sentence
  test_percentage : ℚ

/-- One membership decision of `Corpus.get_sentences`, translated from
`if (np.random.random() >= self.test_percentage and not test) or
(np.random.random() < self.test_percentage and test):` with Python's
short-circuit evaluation made explicit: the first conjunct always consumes
one draw, and the second conjunct (with its own fresh draw) is evaluated
only when the first conjunct is false.  Returns the decision together with
the index of the next unused draw. -/
def includeDecision (p : ℚ) (test : Bool) (d : ℕ → ℚ) (i : ℕ) : Bool × ℕ :=
  if p ≤ d i ∧ test = false then (true, i + 1)
  else (decide (d (i + 1) < p ∧ test = true), i + 2)

/-- The body of `Corpus.get_sentences`: fold over the document's sentences,
threading the draw index, keeping the sentences whose decision was true. -/
def getSentencesAux (p : ℚ) (test : Bool) (d : ℕ → ℚ) :
    List Sentence → ℕ → List Sentence
  | [], _ => []
  | s :: rest, i =>
    let r := includeDecision p test d i
    if r.1 then s :: getSentencesAux p test d rest r.2
    else getSentencesAux p test d rest r.2

/-- `Corpus.get_sentences(test)`, started at draw index `i`. -/
def Corpus.get_sentences (c : Corpus) (test : Bool) (d : ℕ → ℚ) (i : ℕ) :
    List Sentence :=
  getSentencesAux c.test_percentage test d c.sents i

/-- `Corpus.get_words`: every token of the document, in document order. -/
def Corpus.get_words (c : Corpus) : List Token :=
  c.sents.flatMap id

/-- The inner position loop of `Corpus.get_ngrams`:
`for pos in range(len(sent)):` with `if len(sent)-pos < n: break` and
`yield (*[sent[pos+i].text for i in range(n)],)`, over the list of
remaining loop positions. -/
def ngramLoop (n : ℕ) (sent : Sentence) : List ℕ → List Ngram
  | [] => []
  | pos :: rest =>
    if sent.length - pos < n then []
    else ((sent.drop pos).take n) :: ngramLoop n sent rest

/-- N-grams contributed by one sentence; a sentence with fewer than 10
tokens is skipped entirely (`if len(sent) < 10: continue`). -/
def ngramsOfSent (n : ℕ) (sent : Sentence) : List Ngram :=
  if sent.length < 10 then [] else ngramLoop n sent (List.range sent.length)

/-- `Corpus.get_ngrams(n, test)`, started at draw index `i`. -/
def Corpus.get_ngrams (c : Corpus) (n : ℕ) (test : Bool) (d : ℕ → ℚ) (i : ℕ) :
    List Ngram :=
  (c.get_sentences test d i).flatMap (ngramsOfSent n)

/-- The n-gram model: order `n`, the learned n-gram occurrences (the
`collections.Counter` count table, kept as the list of counted occurrences
and queried with `List.count`, which like `Counter.__getitem__` yields 0
for an absent key), and the vocabulary (`self.alphabet`, a Python set,
kept as a duplicate-free list). -/
structure NgramModel where
  n : ℕ
  ngrams : List Ngram
  alphabet : List Token

/-- `NgramModel.learn`: the count table comes from the training partition
(`corpus.get_ngrams(self.n)`, i.e. `test=False`), the vocabulary from the
full document (`set(corpus.get_words())`). -/
def NgramModel.learn (m : NgramModel) (c : Corpus) (d : ℕ → ℚ) (i : ℕ) :
    NgramModel :=
  { n := m.n
    ngrams := c.get_ngrams m.n false d i
    alphabet := c.get_words.dedup }

/-- Python list slicing `l[j:]` for an integer `j`: a negative `j` counts
from the end of the list, clamped at 0; in particular `l[-0:]` is `l[0:]`,
the whole list. -/
def pysliceFrom (l : List Token) (j : ℤ) : List Token :=
  if j < 0 then l.drop ((l.length : ℤ) + j).toNat else l.drop j.toNat

/-- The context actually used by `NgramModel.predict`: the code replaces
`context` by `context[-self.n + 1:]` when `len(context) >= self.n`. -/
def truncCtx (n : ℕ) (context : List Token) : List Token :=
  if n ≤ context.length then pysliceFrom context (-(n : ℤ) + 1) else context

/-- Error outcomes of the embedded code: `invalidArgument` models the
`ValueError` raised by `predict`, `divByZero` the `ZeroDivisionError` of
`cross_ent /= count` when `count == 0`. -/
inductive Err
  | invalidArgument
  | divByZero
  deriving DecidableEq

/-- The kept words of `predict` (`matches`): each vocabulary word whose
count for `tuple(context) + (word,)` is strictly positive, paired with that
count, in vocabulary order. -/
def matchesFor (m : NgramModel) (context : List Token) : List (Token × ℕ) :=
  m.alphabet.filterMap fun w =>
    if 0 < m.ngrams.count (truncCtx m.n context ++ [w]) then
      some (w, m.ngrams.count (truncCtx m.n context ++ [w]))
    else none

/-- `total_count = sum(matches.values(), 0.0)` of `predict`. -/
def matchTotal (m : NgramModel) (context : List Token) : ℚ :=
  ((matchesFor m context).map fun kv => (kv.2 : ℚ)).sum

/-- `NgramModel.predict`, translated line by line from the notebook: raise
for a too-short context, truncate, filter the vocabulary by positive
counts, normalize by the total kept count. -/
def NgramModel.predict (m : NgramModel) (context : List Token) :
    Except Err (List (Token × ℚ)) :=
  if (context.length : ℤ) < (m.n : ℤ) - 1 then .error .invalidArgument
  else
    .ok ((matchesFor m context).map fun kv =>
      (kv.1, (kv.2 : ℚ) / matchTotal m context))

/-- `NgramModel.predict_str`: tokenize the context string with the external
tokenizer, then `predict`. -/
def NgramModel.predict_str (m : NgramModel) (tok : String → List Token)
    (s : String) : Except Err (List (Token × ℚ)) :=
  m.predict (tok s)

/-- The loop of `cross_ent`, threading the running total and the count of
scored n-grams; the final division (and its possible `ZeroDivisionError`)
happens after the loop, as in `cross_ent /= count`. -/
def crossEntLoop (log2 : ℚ → ℚ) (m : NgramModel) (n : ℕ) :
    List Ngram → ℚ → ℕ → Except Err (ℚ × ℕ)
  | [], acc, count =>
    if count = 0 then .error .divByZero else .ok (acc / (count : ℚ), count)
  | g :: rest, acc, count =>
    match m.predict (g.take (n - 1)) with
    | .error e => .error e
    | .ok distr =>
      match distr.lookup (g.getD (n - 1) "") with
      | some q => crossEntLoop log2 m n rest (acc - log2 q) (count + 1)
      | none => crossEntLoop log2 m n rest acc count

/-- `cross_ent(model, corpus, n, test)`, with the draw stream, the starting
draw index, and the external floating-point `np.log2` kept abstract as a
parameter. -/
def cross_ent (log2 : ℚ → ℚ) (m : NgramModel) (c : Corpus) (n : ℕ)
    (test : Bool) (d : ℕ → ℚ) (i : ℕ) : Except Err (ℚ × ℕ) :=
  crossEntLoop log2 m n (c.get_ngrams n test d i) 0 0

/-- The probability that `cross_ent` scores an n-gram with, when its final
token (`ngram[n-1]`) is a key of the distribution predicted from its first
`n-1` tokens (`ngram[0:n-1]`); `none` when the n-gram is skipped or the
prediction fails. -/
def hitProb (m : NgramModel) (n : ℕ) (g : Ngram) : Option ℚ :=
  match m.predict (g.take (n - 1)) with
  | .ok distr => distr.lookup (g.getD (n - 1) "")
  | .error _ => none

/-- A `collections.Counter` read, state-passing style: `Counter.__getitem__`
of an absent key returns 0 and, unlike `defaultdict`, does not insert the
key; the table after the read is returned alongside the count. -/
def counterRead (table : List Ngram) (g : Ngram) : ℕ × List Ngram :=
  (table.count g, table)

/-- The `for word in self.alphabet` loop of `predict`, state-passing style:
each iteration reads the count table through `counterRead` and threads the
resulting table on. -/
def matchLoop (context : List Token) :
    List Token → List Ngram → List (Token × ℕ) × List Ngram
  | [], table => ([], table)
  | w :: ws, table =>
    let r := counterRead table (context ++ [w])
    let rest := matchLoop context ws r.2
    if 0 < r.1 then ((w, r.1) :: rest.1, rest.2) else rest

/-- `NgramModel.predict` with the mutable state made explicit: returns the
prediction together with the model as it stands after the call. -/
def NgramModel.predictS (m : NgramModel) (context : List Token) :
    Except Err (List (Token × ℚ)) × NgramModel :=
  if (context.length : ℤ) < (m.n : ℤ) - 1 then (.error .invalidArgument, m)
  else
    let r := matchLoop (truncCtx m.n context) m.alphabet m.ngrams
    let total : ℚ := (r.1.map fun kv => (kv.2 : ℚ)).sum
    (.ok (r.1.map fun kv => (kv.1, (kv.2 : ℚ) / total)),
      { m with ngrams := r.2 })

/-- `NgramModel.predict_str` with the mutable state made explicit. -/
def NgramModel.predict_strS (m : NgramModel) (tok : String → List Token)
    (s : String) : Except Err (List (Token × ℚ)) × NgramModel :=
  m.predictS (tok s)

/-- Modelled from the spec claim's words on `sentences(test)`: one random
draw per sentence, the sentence included iff
`(draw ≥ p and test=false) or (draw < p and test=true)`.  Kept for
comparison with the code's `getSentencesAux`. -/
def getSentencesSpec (p : ℚ) (test : Bool) (d : ℕ → ℚ) :
    List Sentence → ℕ → List Sentence
  | [], _ => []
  | s :: rest, i =>
    if (p ≤ d i ∧ test = false) ∨ (d i < p ∧ test = true) then
      s :: getSentencesSpec p test d rest (i + 1)
    else getSentencesSpec p test d rest (i + 1)

/-- The amended per-sentence behaviour of `get_sentences`: with
`test=false` one draw is consumed when it is `≥ p` (sentence included) and
a second, discarded draw is consumed when it is `< p` (sentence excluded);
with `test=true` two draws are always consumed and the sentence is included
iff the second one is `< p`. -/
def getSentencesAmended (p : ℚ) (test : Bool) (d : ℕ → ℚ) :
    List Sentence → ℕ → List Sentence
  | [], _ => []
  | s :: rest, i =>
    if test = false then
      if p ≤ d i then s :: getSentencesAmended p test d rest (i + 1)
      else getSentencesAmended p test d rest (i + 2)
    else
      if d (i + 1) < p then s :: getSentencesAmended p test d rest (i + 2)
      else getSentencesAmended p test d rest (i + 2)

/-- Decidable equality for `Except` results, component-wise. -/
instance {ε α : Type} [DecidableEq ε] [DecidableEq α] :
    DecidableEq (Except ε α) := fun a b =>
  match a, b with
  | .error e, .error f => decidable_of_iff (e = f) (by simp)
  | .error _, .ok _ => isFalse fun h => Except.noConfusion h
  | .ok _, .error _ => isFalse fun h => Except.noConfusion h
  | .ok x, .ok y => decidable_of_iff (x = y) (by simp)

/-- Ten distinct tokens forming one training sentence, the scenario of the
spec. -/
def tks : Sentence := ["a", "b", "c", "d", "e", "f", "g", "h", "i", "j"]

/-- A corpus holding the single ten-token sentence, split ratio 0.1. -/
def corpus1 : Corpus := { sents := [tks], test_percentage := mkRat 1 10 }

/-- A draw stream that always returns 1/2: every draw lands the sentence in
the training partition. -/
def dHalf : ℕ → ℚ := fun _ => mkRat 1 2

/-- Order-3 model trained on `corpus1`. -/
def model3 : NgramModel := (NgramModel.mk 3 [] []).learn corpus1 dHalf 0

/-- Order-1 model trained on `corpus1`. -/
def model1 : NgramModel := (NgramModel.mk 1 [] []).learn corpus1 dHalf 0

/-- Draw stream for the `get_sentences` counterexample: 1/20, 9/10, then
1/20 forever. -/
def dC4 : ℕ → ℚ := fun i => if i = 1 then mkRat 9 10 else mkRat 1 20

/-- Two one-token sentences, split ratio 0.1, for the `get_sentences`
counterexample. -/
def corpusC4 : Corpus :=
  { sents := [["a"], ["b"]], test_percentage := mkRat 1 10 }

/-! ### Helper lemmas -/

/-- Membership in the kept matches of `predict`. -/
lemma mem_matchesFor {m : NgramModel} {context : List Token} {w : Token}
    {cnt : ℕ} :
    (w, cnt) ∈ matchesFor m context ↔
      w ∈ m.alphabet ∧ cnt = m.ngrams.count (truncCtx m.n context ++ [w]) ∧
        0 < cnt := by
  rw [matchesFor, List.mem_filterMap]
  constructor
  · rintro ⟨a, ha, hf⟩
    by_cases hc : 0 < m.ngrams.count (truncCtx m.n context ++ [a])
    · rw [if_pos hc] at hf
      obtain ⟨rfl, rfl⟩ := Prod.mk.injEq .. ▸ Option.some.inj hf
      exact ⟨ha, rfl, hc⟩
    · rw [if_neg hc] at hf
      exact absurd hf (Option.some_ne_none _).symm
  · rintro ⟨hw, rfl, hc⟩
    exact ⟨w, hw, by rw [if_pos hc]⟩

/-- Successful shape of `predict` when the context is long enough. -/
lemma predict_ok {m : NgramModel} {context : List Token}
    (h : ¬ (context.length : ℤ) < (m.n : ℤ) - 1) :
    m.predict context =
      .ok ((matchesFor m context).map fun kv =>
        (kv.1, (kv.2 : ℚ) / matchTotal m context)) := by
  rw [NgramModel.predict, if_neg h]

/-! ### C5: learn -/

/-- C5: `learn` sets the count table to exactly the multiset of n-grams of
the training partition (`test=False`) of the given corpus, and the
vocabulary to exactly the distinct tokens of the full document; a second
`learn` call replaces all learned state rather than adding to it. -/
theorem learn_sets_counts_and_alphabet (m : NgramModel) (c c2 : Corpus)
    (d d2 : ℕ → ℚ) (i i2 : ℕ) :
    (m.learn c d i).ngrams = c.get_ngrams m.n false d i ∧
      ((m.learn c d i).alphabet.Nodup ∧
        ∀ w, w ∈ (m.learn c d i).alphabet ↔ w ∈ c.get_words) ∧
      (m.learn c2 d2 i2).learn c d i = m.learn c d i :=
  ⟨rfl, ⟨List.nodup_dedup _, fun _ => List.mem_dedup⟩, rfl⟩

/-! ### C7: context length guard -/

/-- C7: `predict` fails with the `ValueError` (`invalidArgument`) exactly
when the context is shorter than `n - 1`. -/
theorem predict_error_iff_short_context (m : NgramModel)
    (context : List Token) :
    m.predict context = .error .invalidArgument ↔
      (context.length : ℤ) < (m.n : ℤ) - 1 := by
  rw [NgramModel.predict]
  by_cases h : (context.length : ℤ) < (m.n : ℤ) - 1 <;> simp [h]

/-! ### C6: unseen context gives an empty mapping -/

/-- C6: on a context of valid length after which no vocabulary word has a
positive count, `predict` returns an empty mapping, with no error even
though the total of kept counts is zero. -/
theorem predict_empty_on_unseen (m : NgramModel) (context : List Token)
    (hlen : ¬ (context.length : ℤ) < (m.n : ℤ) - 1)
    (h0 : ∀ w ∈ m.alphabet,
      m.ngrams.count (truncCtx m.n context ++ [w]) = 0) :
    m.predict context = .ok [] := by
  have hm : matchesFor m context = [] := by
    rw [matchesFor, List.filterMap_eq_nil_iff]
    intro w hw
    rw [if_neg]
    rw [h0 w hw]
    exact lt_irrefl 0
  rw [predict_ok hlen, hm]
  rfl

/-- Witness for C6: the order-3 model trained on the ten-token sentence,
queried on the never-seen context `["x", "y"]`, answers the empty mapping. -/
theorem predict_empty_on_unseen_witness :
    (¬ (((["x", "y"] : List Token).length : ℤ) < (model3.n : ℤ) - 1)) ∧
      (∀ w ∈ model3.alphabet,
        model3.ngrams.count (truncCtx model3.n ["x", "y"] ++ [w]) = 0) ∧
      model3.predict ["x", "y"] = .ok [] :=
  ⟨by decide, by decide,
    predict_empty_on_unseen model3 ["x", "y"] (by decide) (by decide)⟩

/-! ### C10: predict does not mutate the model -/

/-- The vocabulary loop of `predictS` returns the same matches as
`matchesFor` over its word list and leaves the count table unchanged. -/
lemma matchLoop_spec (context : List Token) :
    ∀ (ws : List Token) (table : List Ngram),
      matchLoop context ws table =
        (ws.filterMap fun w =>
          if 0 < table.count (context ++ [w]) then
            some (w, table.count (context ++ [w]))
          else none,
          table) := by
  intro ws
  induction ws with
  | nil => intro table; rfl
  | cons w ws ih =>
    intro table
    rw [matchLoop]
    simp only [counterRead, ih, List.filterMap_cons]
    by_cases h : 0 < table.count (context ++ [w])
    · rw [if_pos h, if_pos h]
    · rw [if_neg h, if_neg h]

/-- The state returned by `predictS` is the unchanged model. -/
lemma predictS_snd (m : NgramModel) (context : List Token) :
    (m.predictS context).2 = m := by
  rw [NgramModel.predictS]
  by_cases h : (context.length : ℤ) < (m.n : ℤ) - 1
  · rw [if_pos h]
  · rw [if_neg h]
    simp only [matchLoop_spec]

/-- The result returned by `predictS` agrees with the functional
`predict`. -/
lemma predictS_fst (m : NgramModel) (context : List Token) :
    (m.predictS context).1 = m.predict context := by
  rw [NgramModel.predictS, NgramModel.predict]
  by_cases h : (context.length : ℤ) < (m.n : ℤ) - 1
  · rw [if_pos h, if_pos h]
  · rw [if_neg h, if_neg h]
    simp only [matchLoop_spec]
    rfl

/-- C10: `predict` and `predict_str` leave the model's count table and
vocabulary unchanged — in particular a `Counter` lookup of an absent
n-gram inserts nothing — and the stateful rendering computes the same
result as the functional one. -/
theorem predict_preserves_model (m : NgramModel) (context : List Token)
    (tok : String → List Token) (s : String) :
    (m.predictS context).2 = m ∧ (m.predict_strS tok s).2 = m ∧
      (m.predictS context).1 = m.predict context :=
  ⟨predictS_snd m context, predictS_snd m (tok s), predictS_fst m context⟩

/-! ### C2: predict keys and values -/

/-- Every kept match carries a positive count. -/
lemma matchesFor_snd_pos {m : NgramModel} {context : List Token} :
    ∀ kv ∈ matchesFor m context, 0 < kv.2 := by
  rintro ⟨a, c⟩ h
  exact (mem_matchesFor.mp h).2.2

/-- Each kept count is bounded by the total of kept counts. -/
lemma le_matchTotal {m : NgramModel} {context : List Token} {kv : Token × ℕ}
    (h : kv ∈ matchesFor m context) :
    (kv.2 : ℚ) ≤ matchTotal m context := by
  apply List.single_le_sum
  · intro x hx
    rw [List.mem_map] at hx
    obtain ⟨kv2, _, rfl⟩ := hx
    exact Nat.cast_nonneg _
  · exact List.mem_map_of_mem _ h

/-- The total of kept counts is positive as soon as one word was kept. -/
lemma matchTotal_pos {m : NgramModel} {context : List Token}
    (hne : matchesFor m context ≠ []) : 0 < matchTotal m context := by
  obtain ⟨kv, hkv⟩ := List.exists_mem_of_ne_nil _ hne
  have h1 : (0 : ℚ) < kv.2 := by exact_mod_cast matchesFor_snd_pos kv hkv
  exact lt_of_lt_of_le h1 (le_matchTotal hkv)

/-- C2: on a context of valid length, `predict` returns a mapping whose
keys are exactly the vocabulary words whose n-gram after the truncated
context has a strictly positive count, each mapped to that count divided by
the total of kept counts; every returned probability is strictly positive,
so no returned word has count 0 in the table. -/
theorem predict_keys_and_values (m : NgramModel) (context : List Token)
    (h : ¬ (context.length : ℤ) < (m.n : ℤ) - 1) :
    ∃ l, m.predict context = .ok l ∧
      (∀ w, (∃ q, (w, q) ∈ l) ↔
        w ∈ m.alphabet ∧
          0 < m.ngrams.count (truncCtx m.n context ++ [w])) ∧
      (∀ w q, (w, q) ∈ l →
        q = (m.ngrams.count (truncCtx m.n context ++ [w]) : ℚ) /
            matchTotal m context ∧ 0 < q) := by
  refine ⟨_, predict_ok h, ?_, ?_⟩
  · intro w
    constructor
    · rintro ⟨q, hq⟩
      rw [List.mem_map] at hq
      obtain ⟨⟨a, c⟩, hkv, he⟩ := hq
      obtain ⟨ha, _⟩ := Prod.mk.injEq .. ▸ he
      subst ha
      obtain ⟨hw, _, hc⟩ := mem_matchesFor.mp hkv
      exact ⟨hw, by rwa [(mem_matchesFor.mp hkv).2.1] at hc⟩
    · rintro ⟨hw, hc⟩
      refine ⟨(m.ngrams.count (truncCtx m.n context ++ [w]) : ℚ) /
        matchTotal m context, ?_⟩
      rw [List.mem_map]
      exact ⟨(w, m.ngrams.count (truncCtx m.n context ++ [w])),
        mem_matchesFor.mpr ⟨hw, rfl, hc⟩, rfl⟩
  · intro w q hq
    rw [List.mem_map] at hq
    obtain ⟨⟨a, c⟩, hkv, he⟩ := hq
    obtain ⟨ha, hq2⟩ := Prod.mk.injEq .. ▸ he
    subst ha
    obtain ⟨hw, hcn, hc⟩ := mem_matchesFor.mp hkv
    have hT : 0 < matchTotal m context :=
      matchTotal_pos (List.ne_nil_of_mem hkv)
    constructor
    · rw [← hq2, hcn]
    · rw [← hq2]
      exact div_pos (by exact_mod_cast hc) hT

/-- Witness for C2: the order-3 model on context `["a", "b"]`. -/
theorem predict_keys_and_values_witness :
    (¬ (((["a", "b"] : List Token).length : ℤ) < (model3.n : ℤ) - 1)) ∧
      (∃ l, model3.predict ["a", "b"] = .ok l ∧
        (∀ w, (∃ q, (w, q) ∈ l) ↔
          w ∈ model3.alphabet ∧
            0 < model3.ngrams.count
              (truncCtx model3.n ["a", "b"] ++ [w])) ∧
        (∀ w q, (w, q) ∈ l →
          q = (model3.ngrams.count
                (truncCtx model3.n ["a", "b"] ++ [w]) : ℚ) /
              matchTotal model3 ["a", "b"] ∧ 0 < q)) :=
  ⟨by decide, predict_keys_and_values model3 ["a", "b"] (by decide)⟩

/-! ### C9: probabilities sum to one -/

/-- Dividing each summand divides the sum. -/
lemma sum_map_div_eq (l : List (Token × ℕ)) (T : ℚ) :
    (l.map fun kv => (kv.2 : ℚ) / T).sum =
      (l.map fun kv => (kv.2 : ℚ)).sum / T := by
  induction l with
  | nil => simp
  | cons kv rest ih => simp [ih, add_div]

/-- C9: whenever `predict` returns a non-empty mapping, its probability
values sum to exactly 1 over the rationals. -/
theorem predict_probabilities_sum_to_one (m : NgramModel)
    (context : List Token) (l : List (Token × ℚ))
    (hok : m.predict context = .ok l) (hne : l ≠ []) :
    (l.map Prod.snd).sum = 1 := by
  by_cases h : (context.length : ℤ) < (m.n : ℤ) - 1
  · rw [NgramModel.predict, if_pos h] at hok
    exact absurd hok (by simp)
  · rw [predict_ok h] at hok
    have hl : ((matchesFor m context).map fun kv =>
        (kv.1, (kv.2 : ℚ) / matchTotal m context)) = l := by
      injection hok
    subst hl
    have hms : matchesFor m context ≠ [] := by
      intro h0
      rw [h0] at hne
      exact hne rfl
    rw [List.map_map]
    have hcomp : (Prod.snd ∘ fun kv : Token × ℕ =>
        (kv.1, (kv.2 : ℚ) / matchTotal m context)) =
        fun kv : Token × ℕ => (kv.2 : ℚ) / matchTotal m context := rfl
    rw [hcomp, sum_map_div_eq]
    exact div_self (ne_of_gt (matchTotal_pos hms))

/-- Witness for C9: the order-3 model on context `["a", "b"]` returns the
single-entry mapping with probability 1. -/
theorem predict_probabilities_sum_to_one_witness :
    model3.predict ["a", "b"] = .ok [("c", 1)] ∧
      ([(("c" : Token), (1 : ℚ))] ≠ []) ∧
      (([(("c" : Token), (1 : ℚ))].map Prod.snd).sum = 1) :=
  ⟨by decide, by decide,
    predict_probabilities_sum_to_one model3 ["a", "b"] [("c", 1)]
      (by decide) (by decide)⟩

/-! ### C3: context truncation -/

/-- C3 counterexample: for an order-1 model, `context[-self.n + 1:]` is
`context[-0:]`, the whole context, so `predict(["a"])` looks up pairs
`("a", w)` in a table of 1-grams and returns the empty mapping, while
`predict` on the context truncated to its last `n - 1 = 0` tokens returns
the full unigram distribution.  The two disagree. -/
theorem predict_truncation_cex :
    model1.predict ["a"] ≠ model1.predict [] := by decide

/-- For `n ≥ 2` and a context of length at least `n`, the code's slice
`context[-n + 1:]` is the last `n - 1` tokens. -/
lemma truncCtx_drop (n : ℕ) (context : List Token) (h2 : 2 ≤ n)
    (hn : n ≤ context.length) :
    truncCtx n context = context.drop (context.length - (n - 1)) := by
  rw [truncCtx, if_pos hn, pysliceFrom, if_pos (by omega)]
  congr 1
  omega

/-- A context shorter than `n` is left untouched by the truncation. -/
lemma truncCtx_short (n : ℕ) (context : List Token)
    (h : context.length < n) : truncCtx n context = context := by
  rw [truncCtx, if_neg (by omega)]

/-- `predict` only looks at the context through `truncCtx`. -/
lemma predict_congr_trunc (m : NgramModel) (a b : List Token)
    (hga : ¬ (a.length : ℤ) < (m.n : ℤ) - 1)
    (hgb : ¬ (b.length : ℤ) < (m.n : ℤ) - 1)
    (h : truncCtx m.n a = truncCtx m.n b) :
    m.predict a = m.predict b := by
  have hm : matchesFor m a = matchesFor m b := by
    simp only [matchesFor, h]
  have hT : matchTotal m a = matchTotal m b := by
    rw [matchTotal, matchTotal, hm]
  rw [predict_ok hga, predict_ok hgb]
  simp only [hm, hT]

/-- C3 amended: for every trained model of order `n ≥ 2` and every context
strictly longer than `n - 1`, `predict` returns the same result as
`predict` on the context truncated to its last `n - 1` tokens.  (For
`n = 1` the claim fails, see the counterexample: the slice `[-0:]` keeps
the whole context.) -/
theorem predict_truncates_for_n_ge_two (m : NgramModel)
    (context : List Token) (h2 : 2 ≤ m.n)
    (hl : (m.n : ℤ) - 1 < (context.length : ℤ)) :
    m.predict context =
      m.predict (context.drop (context.length - (m.n - 1))) := by
  have hnat : m.n ≤ context.length := by omega
  have hlt : (context.drop (context.length - (m.n - 1))).length = m.n - 1 := by
    rw [List.length_drop]
    omega
  apply predict_congr_trunc
  · omega
  · rw [hlt]
    omega
  · rw [truncCtx_drop m.n context h2 hnat,
      truncCtx_short m.n _ (by rw [hlt]; omega)]

/-- Witness for the amended C3: the order-3 model answers the same on
`["z", "a", "b"]` as on its last two tokens. -/
theorem predict_truncates_for_n_ge_two_witness :
    2 ≤ model3.n ∧
      ((model3.n : ℤ) - 1 < ((["z", "a", "b"] : List Token).length : ℤ)) ∧
      model3.predict ["z", "a", "b"] =
        model3.predict ((["z", "a", "b"] : List Token).drop
          ((["z", "a", "b"] : List Token).length - (model3.n - 1))) :=
  ⟨by decide, by decide,
    predict_truncates_for_n_ge_two model3 ["z", "a", "b"]
      (by decide) (by decide)⟩

/-! ### C4: the train/test split draws -/

/-- C4 counterexample: with split ratio 1/10 and the draw stream 1/20,
9/10, 1/20, ... the code returns a different training selection than the
spec's one-draw-per-sentence rule: the code's first (excluding) decision
consumes two draws, so the second sentence is judged on the third draw. -/
theorem get_sentences_cex :
    corpusC4.get_sentences false dC4 0 ≠
      getSentencesSpec corpusC4.test_percentage false dC4 corpusC4.sents 0 := by
  decide

/-- The code's sentence filter agrees with the amended per-sentence rule. -/
lemma getSentencesAux_eq_amended (p : ℚ) (test : Bool) (d : ℕ → ℚ) :
    ∀ (l : List Sentence) (i : ℕ),
      getSentencesAux p test d l i = getSentencesAmended p test d l i := by
  intro l
  induction l with
  | nil => intro i; rfl
  | cons s rest ih =>
    intro i
    cases test with
    | false =>
      by_cases hp : p ≤ d i
      · have hd : includeDecision p false d i = (true, i + 1) := by
          rw [includeDecision, if_pos ⟨hp, rfl⟩]
        simp only [getSentencesAux, getSentencesAmended, hd, ih]
        simp [hp]
      · have hd : includeDecision p false d i = (false, i + 2) := by
          rw [includeDecision, if_neg]
          · simp
          · rintro ⟨h1, _⟩
            exact hp h1
        simp only [getSentencesAux, getSentencesAmended, hd, ih]
        simp [hp]
    | true =>
      have hd : includeDecision p true d i =
          (decide (d (i + 1) < p), i + 2) := by
        rw [includeDecision, if_neg]
        · simp
        · rintro ⟨_, h⟩
          exact Bool.noConfusion h
      by_cases hq : d (i + 1) < p
      · simp only [getSentencesAux, getSentencesAmended, hd, ih]
        simp [hq]
      · simp only [getSentencesAux, getSentencesAmended, hd, ih]
        simp [hq]

/-- C4 amended: `get_sentences(test)` includes a sentence iff
(`test=false` and its first draw is `≥ p`) or (`test=true` and its second
draw is `< p`); it consumes one draw for an included training sentence and
two draws otherwise, as captured by `getSentencesAmended`. -/
theorem get_sentences_amended_eq (c : Corpus) (test : Bool) (d : ℕ → ℚ)
    (i : ℕ) :
    c.get_sentences test d i =
      getSentencesAmended c.test_percentage test d c.sents i :=
  getSentencesAux_eq_amended c.test_percentage test d c.sents i

/-! ### C1: n-gram enumeration -/

/-- The position loop over consecutive positions yields one window per
position until either the budget or the last full window is exhausted. -/
lemma ngramLoop_range' (n : ℕ) (hn : 1 ≤ n) (sent : Sentence) :
    ∀ (m : ℕ) (pos : ℕ),
      ngramLoop n sent (List.range' pos m) =
        (List.range' pos (min m (sent.length + 1 - n - pos))).map
          fun p => (sent.drop p).take n := by
  intro m
  induction m with
  | zero =>
    intro pos
    simp [ngramLoop]
  | succ m ih =>
    intro pos
    rw [List.range'_succ, ngramLoop]
    by_cases hb : sent.length - pos < n
    · rw [if_pos hb]
      have h0 : min (m + 1) (sent.length + 1 - n - pos) = 0 := by omega
      rw [h0]
      rfl
    · rw [if_neg hb]
      have h1 : min (m + 1) (sent.length + 1 - n - pos) =
          min m (sent.length + 1 - n - (pos + 1)) + 1 := by omega
      rw [h1, List.range'_succ, List.map_cons, ih (pos + 1)]

/-- One sentence's n-grams, in claim form: nothing under 10 tokens,
otherwise one window at each position from 0 to `len - n` inclusive. -/
lemma ngramsOfSent_eq (n : ℕ) (hn : 1 ≤ n) (sent : Sentence) :
    ngramsOfSent n sent =
      if sent.length < 10 then []
      else (List.range (sent.length + 1 - n)).map
        fun pos => (sent.drop pos).take n := by
  rw [ngramsOfSent]
  by_cases h10 : sent.length < 10
  · rw [if_pos h10, if_pos h10]
  · rw [if_neg h10, if_neg h10, List.range_eq_range', ngramLoop_range' n hn,
      List.range_eq_range']
    have hmin : min sent.length (sent.length + 1 - n - 0) =
        sent.length + 1 - n := by omega
    rw [hmin]

/-- C1: for every order `n ≥ 1` and partition flag, `get_ngrams` yields,
for each sentence of `get_sentences`, nothing when the sentence has fewer
than 10 tokens and otherwise exactly the window of `n` consecutive tokens
at each start position from 0 up to `len - n` inclusive, in sentence order
then position order. -/
theorem get_ngrams_characterization (c : Corpus) (n : ℕ) (test : Bool)
    (d : ℕ → ℚ) (i : ℕ) (hn : 1 ≤ n) :
    c.get_ngrams n test d i =
      (c.get_sentences test d i).flatMap fun sent =>
        if sent.length < 10 then []
        else (List.range (sent.length + 1 - n)).map
          fun pos => (sent.drop pos).take n := by
  rw [Corpus.get_ngrams]
  congr 1
  funext sent
  exact ngramsOfSent_eq n hn sent

/-- Witness for C1: the single ten-token training sentence with `n = 3`
yields exactly the eight consecutive trigrams. -/
theorem get_ngrams_characterization_witness :
    1 ≤ 3 ∧
      (corpus1.get_ngrams 3 false dHalf 0 =
        (corpus1.get_sentences false dHalf 0).flatMap fun sent =>
          if sent.length < 10 then []
          else (List.range (sent.length + 1 - 3)).map
            fun pos => (sent.drop pos).take 3) ∧
      corpus1.get_ngrams 3 false dHalf 0 =
        [["a", "b", "c"], ["b", "c", "d"], ["c", "d", "e"], ["d", "e", "f"],
          ["e", "f", "g"], ["f", "g", "h"], ["g", "h", "i"],
          ["h", "i", "j"]] :=
  ⟨by decide, get_ngrams_characterization corpus1 3 false dHalf 0 (by decide),
    by decide⟩

/-! ### C8: cross-entropy evaluation -/

/-- Every n-gram yielded by the position loop is a full window of `n`
tokens. -/
lemma ngramLoop_mem_length (n : ℕ) (sent : Sentence) :
    ∀ (ps : List ℕ) (g : Ngram), g ∈ ngramLoop n sent ps → g.length = n := by
  intro ps
  induction ps with
  | nil =>
    intro g hg
    simp [ngramLoop] at hg
  | cons pos rest ih =>
    intro g hg
    rw [ngramLoop] at hg
    by_cases hb : sent.length - pos < n
    · rw [if_pos hb] at hg
      simp at hg
    · rw [if_neg hb] at hg
      rcases List.mem_cons.mp hg with h | h
      · subst h
        rw [List.length_take, List.length_drop]
        omega
      · exact ih g h

/-- Every n-gram produced by `get_ngrams` has length `n`. -/
lemma get_ngrams_length (c : Corpus) (n : ℕ) (test : Bool) (d : ℕ → ℚ)
    (i : ℕ) : ∀ g ∈ c.get_ngrams n test d i, g.length = n := by
  intro g hg
  rw [Corpus.get_ngrams, List.mem_flatMap] at hg
  obtain ⟨sent, _, hgs⟩ := hg
  rw [ngramsOfSent] at hgs
  by_cases h10 : sent.length < 10
  · rw [if_pos h10] at hgs
    simp at hgs
  · rw [if_neg h10] at hgs
    exact ngramLoop_mem_length n sent _ g hgs

/-- On a full window, the prediction of the first `n - 1` tokens succeeds,
and `hitProb` is the lookup of the window's last token in it. -/
lemma predict_ok_of_window {m : NgramModel} {n : ℕ} (hn : m.n = n)
    {g : Ngram} (hg : g.length = n) :
    ∃ distr, m.predict (g.take (n - 1)) = .ok distr ∧
      hitProb m n g = distr.lookup (g.getD (n - 1) "") := by
  have hlen : ¬ (((g.take (n - 1)).length : ℤ) < (m.n : ℤ) - 1) := by
    rw [List.length_take, hg, hn]
    omega
  exact ⟨_, predict_ok hlen, by rw [hitProb, predict_ok hlen]⟩

/-- The evaluation loop, characterized: it scores exactly the n-grams with
a `hitProb`, sums `-log2` of those probabilities onto the accumulator,
counts them, and divides at the end unless the final count is zero. -/
lemma crossEntLoop_spec (log2 : ℚ → ℚ) (m : NgramModel) (n : ℕ)
    (hn : m.n = n) :
    ∀ (L : List Ngram), (∀ g ∈ L, g.length = n) → ∀ (acc : ℚ) (count : ℕ),
      crossEntLoop log2 m n L acc count =
        if count + (L.filterMap (hitProb m n)).length = 0 then
          .error .divByZero
        else
          .ok ((acc +
                ((L.filterMap (hitProb m n)).map fun q => -log2 q).sum) /
              ((count + (L.filterMap (hitProb m n)).length : ℕ) : ℚ),
            count + (L.filterMap (hitProb m n)).length) := by
  intro L
  induction L with
  | nil =>
    intro _ acc count
    simp only [crossEntLoop, List.filterMap_nil, List.length_nil,
      List.map_nil, List.sum_nil, add_zero, Nat.add_zero]
  | cons g rest ih =>
    intro hlen acc count
    obtain ⟨distr, hd, hhit⟩ :=
      predict_ok_of_window hn (hlen g (List.mem_cons_self g rest))
    have hrest : ∀ g2 ∈ rest, g2.length = n := fun g2 h2 =>
      hlen g2 (List.mem_cons_of_mem g h2)
    cases hl : distr.lookup (g.getD (n - 1) "") with
    | some q =>
      have hfm : (g :: rest).filterMap (hitProb m n) =
          q :: rest.filterMap (hitProb m n) := by
        rw [List.filterMap_cons, hhit, hl]
      simp only [crossEntLoop, hd, hl]
      rw [ih hrest (acc - log2 q) (count + 1), hfm]
      simp only [List.length_cons, List.map_cons, List.sum_cons]
      rw [if_neg (by omega), if_neg (by omega)]
      have hc : count + 1 + (rest.filterMap (hitProb m n)).length =
          count + ((rest.filterMap (hitProb m n)).length + 1) := by omega
      have ha : acc - log2 q +
          ((rest.filterMap (hitProb m n)).map fun p => -log2 p).sum =
          acc + (-log2 q +
            ((rest.filterMap (hitProb m n)).map fun p => -log2 p).sum) := by
        ring
      rw [hc, ha]
    | none =>
      have hfm : (g :: rest).filterMap (hitProb m n) =
          rest.filterMap (hitProb m n) := by
        rw [List.filterMap_cons, hhit, hl]
      simp only [crossEntLoop, hd, hl]
      rw [ih hrest acc count, hfm]

/-- C8: the cross-entropy evaluation scores exactly the n-grams whose final
token is a key of the distribution predicted from their first `n - 1`
tokens, silently skipping the others; it returns the accumulated total
divided by the number scored together with that number, and fails with the
division-by-zero condition when nothing was scored. -/
theorem cross_ent_characterization (log2 : ℚ → ℚ) (m : NgramModel)
    (c : Corpus) (n : ℕ) (test : Bool) (d : ℕ → ℚ) (i : ℕ)
    (hn : m.n = n) :
    cross_ent log2 m c n test d i =
      if ((c.get_ngrams n test d i).filterMap (hitProb m n)).length = 0 then
        .error .divByZero
      else
        .ok ((((c.get_ngrams n test d i).filterMap (hitProb m n)).map
              fun q => -log2 q).sum /
            (((c.get_ngrams n test d i).filterMap (hitProb m n)).length : ℚ),
          ((c.get_ngrams n test d i).filterMap (hitProb m n)).length) := by
  rw [cross_ent,
    crossEntLoop_spec log2 m n hn _ (get_ngrams_length c n test d i) 0 0]
  simp only [Nat.zero_add, zero_add]

/-- The all-zero stand-in for the external `np.log2`, used by the witness. -/
def log2Zero : ℚ → ℚ := fun _ => 0

/-- Witness for C8: the order-3 model over its own training partition
scores all eight trigrams, and over the (empty) test partition fails with
the division-by-zero condition. -/
theorem cross_ent_characterization_witness :
    model3.n = 3 ∧
      (cross_ent log2Zero model3 corpus1 3 false dHalf 0 =
        if ((corpus1.get_ngrams 3 false dHalf 0).filterMap
              (hitProb model3 3)).length = 0 then
          .error .divByZero
        else
          .ok ((((corpus1.get_ngrams 3 false dHalf 0).filterMap
                  (hitProb model3 3)).map fun q => -log2Zero q).sum /
              (((corpus1.get_ngrams 3 false dHalf 0).filterMap
                  (hitProb model3 3)).length : ℚ),
            ((corpus1.get_ngrams 3 false dHalf 0).filterMap
                (hitProb model3 3)).length)) ∧
      cross_ent log2Zero model3 corpus1 3 true dHalf 0 =
        .error .divByZero :=
  ⟨rfl,
    cross_ent_characterization log2Zero model3 corpus1 3 false dHalf 0 rfl,
    by decide⟩
